import Mathlib

/-!
Verification of the zkteco Go client protocol core.

We shallowly embed the pure protocol functions of the repository
(packet parsing and construction, checksum, TCP framing extraction,
bulk-data chunk accumulation, auth key derivation, timestamp packing,
event filtering, and the stateful `command` exchange) as Lean
definitions over `Nat` / `Int` / `List Nat`, with machine-integer
overflow made explicit via `% 2^w`, and prove the specification
claims about them.

Bytes are modelled as `Nat` (values < 256 where the source guarantees
it); byte buffers as `List Nat`; Go's `binary.LittleEndian` accessors
as the `le16` / `le32` / `put16` / `put32` helpers below.
-/

namespace ZK

/-- Go `binary.LittleEndian.Uint16(data[i:i+2])`: read two bytes at
offset `i` little-endian (out-of-range reads give 0; callers establish
the bounds the Go slice expression requires). -/
def le16 (l : List Nat) (i : Nat) : Nat :=
  l.getD i 0 + 256 * l.getD (i + 1) 0

/-- Go `binary.LittleEndian.Uint32(data[i:i+4])`. -/
def le32 (l : List Nat) (i : Nat) : Nat :=
  l.getD i 0 + 256 * l.getD (i + 1) 0 + 65536 * l.getD (i + 2) 0 +
    16777216 * l.getD (i + 3) 0

/-- Go `binary.LittleEndian.PutUint16`: the two little-endian bytes
of a `uint16` value. -/
def put16 (v : Nat) : List Nat :=
  [v % 256, v / 256 % 256]

/-- Go `binary.LittleEndian.PutUint32`: the four little-endian bytes
of a `uint32` value. -/
def put32 (v : Nat) : List Nat :=
  [v % 256, v / 256 % 256, v / 65536 % 256, v / 16777216 % 256]

/-- The `packet` struct of the source: a parsed ZKTeco protocol
packet. -/
structure Packet where
  Command : Nat
  Checksum : Nat
  SessionID : Nat
  ReplyID : Nat
  Data : List Nat
  deriving Repr, DecidableEq

/-- Function `parsePacket`: parses raw bytes (without TCP framing) into a
packet; fails (`none`, the Go error) if fewer than 8 bytes. -/
def parsePacket (data : List Nat) : Option Packet :=
  if data.length < 8 then none
  else some
    { Command := le16 data 0
      Checksum := le16 data 2
      SessionID := le16 data 4
      ReplyID := le16 data 6
      Data := data.drop 8 }

/-- The 8-byte little-endian header serialization followed by the
payload, as produced by the packing steps of `createHeader`. -/
def serializePacket (command checksum sessionID replyID : Nat)
    (data : List Nat) : List Nat :=
  put16 command ++ put16 checksum ++ put16 sessionID ++ put16 replyID ++ data

theorem le16_put16_append (v : Nat) (hv : v < 65536) (rest : List Nat) :
    le16 (put16 v ++ rest) 0 = v := by
  simp [le16, put16]
  omega

theorem put16_length (v : Nat) : (put16 v).length = 2 := rfl

theorem serializePacket_length (c k s r : Nat) (d : List Nat) :
    (serializePacket c k s r d).length = 8 + d.length := by
  simp [serializePacket, put16]
  omega

theorem serializePacket_drop8 (c k s r : Nat) (d : List Nat) :
    (serializePacket c k s r d).drop 8 = d := by
  simp [serializePacket, put16]

theorem le16_serializePacket_0 (c k s r : Nat) (hc : c < 65536)
    (d : List Nat) : le16 (serializePacket c k s r d) 0 = c := by
  simpa [serializePacket] using
    le16_put16_append c hc (put16 k ++ put16 s ++ put16 r ++ d)

theorem le16_serializePacket_2 (c k s r : Nat) (hk : k < 65536)
    (d : List Nat) : le16 (serializePacket c k s r d) 2 = k := by
  simp [serializePacket, le16, put16]
  omega

theorem le16_serializePacket_4 (c k s r : Nat) (hs : s < 65536)
    (d : List Nat) : le16 (serializePacket c k s r d) 4 = s := by
  simp [serializePacket, le16, put16]
  omega

theorem le16_serializePacket_6 (c k s r : Nat) (hr : r < 65536)
    (d : List Nat) : le16 (serializePacket c k s r d) 6 = r := by
  simp [serializePacket, le16, put16]
  omega

/-- C7: `parsePacket` fails exactly on inputs shorter than 8 bytes,
and recovers the four header fields and the payload from the 8-byte
little-endian header serialization of any in-range field values
followed by any payload. -/
theorem parsePacket_correct :
    (∀ data : List Nat, parsePacket data = none ↔ data.length < 8) ∧
    (∀ c k s r : Nat, ∀ d : List Nat,
      c < 65536 → k < 65536 → s < 65536 → r < 65536 →
      parsePacket (serializePacket c k s r d) =
        some { Command := c, Checksum := k, SessionID := s,
               ReplyID := r, Data := d }) := by
  constructor
  · intro data
    unfold parsePacket
    split <;> simp_all
  · intro c k s r d hc hk hs hr
    unfold parsePacket
    rw [if_neg (by simp [serializePacket_length])]
    simp only [Option.some.injEq]
    rw [le16_serializePacket_0 c k s r hc d,
      le16_serializePacket_2 c k s r hk d,
      le16_serializePacket_4 c k s r hs d,
      le16_serializePacket_6 c k s r hr d,
      serializePacket_drop8]

/-! ## Checksum (`calculateChecksum`) -/

/-- The word-summing loop of `calculateChecksum`: consumes the bytes
two at a time as little-endian 16-bit words, folding any sum above
65535 back by subtracting 65535 (`if chksum > ushrtMax`), and adds a
trailing odd byte directly (`if length%2 != 0`).  The accumulator is
Go's `int64 chksum`. -/
def wordSum : List Nat → Int → Int
  | [], c => c
  | [b], c => c + (b : Int)
  | b0 :: b1 :: rest, c =>
    let c2 := c + ((b0 + 256 * b1 : Nat) : Int)
    wordSum rest (if c2 > 65535 then c2 - 65535 else c2)

/-- The loop `for chksum > ushrtMax { chksum -= ushrtMax }`. -/
def normDown (c : Int) : Int :=
  if c > 65535 then normDown (c - 65535) else c
  termination_by c.toNat
  decreasing_by
    have : (65536 : Int) ≤ c := by omega
    omega

/-- The loop `for chksum < 0 { chksum += ushrtMax }`. -/
def normUp (c : Int) : Int :=
  if c < 0 then normUp (c + 65535) else c
  termination_by (-c).toNat
  decreasing_by omega

/-- Function `calculateChecksum`: the ZKTeco 16-bit checksum, translated from
the source: word sum with in-loop carry fold, odd trailing byte,
normalization down, conditional negation, decrement, normalization up,
and the final `uint16` conversion. -/
def calculateChecksum (data : List Nat) : Nat :=
  let c1 := wordSum data 0
  let c2 := normDown c1
  let c3 := if c2 > 0 then -c2 else c2
  ((normUp (c3 - 1)) % 65536).toNat

/-- Modelled from the spec: `checksum(bytes) -> u16` as the spec words
it — running 16-bit little-endian word sum folded modulo 65535 with a
trailing odd byte added directly, then the sum negated, decremented by
one, and normalized into `[0, 65535)` by repeated addition of 65535
until non-negative. -/
def checksumSpec (data : List Nat) : Nat :=
  (normUp (-(wordSum data 0) - 1)).toNat

theorem normUp_bounds : ∀ n : Nat, ∀ c : Int, c < 0 → (-c).toNat ≤ n →
    0 ≤ normUp c ∧ normUp c < 65535 := by
  intro n
  induction n with
  | zero => intro c hc hn; omega
  | succ m ih =>
    intro c hc hn
    rw [normUp, if_pos hc]
    by_cases h2 : c + 65535 < 0
    · exact ih (c + 65535) h2 (by omega)
    · rw [normUp, if_neg h2]
      omega

theorem normUp_nonneg_lt (c : Int) (hc : c < 0) :
    0 ≤ normUp c ∧ normUp c < 65535 :=
  normUp_bounds (-c).toNat c hc le_rfl

/-- Repeated subtraction of 65535 before the negate-and-normalize tail
is absorbed by the repeated addition of 65535 after it. -/
theorem normUp_neg_normDown : ∀ n : Nat, ∀ c : Int, 0 ≤ c → c.toNat ≤ n →
    normUp (-(normDown c) - 1) = normUp (-c - 1) := by
  intro n
  induction n with
  | zero =>
    intro c hc hn
    have hc0 : c = 0 := by omega
    subst hc0
    rw [normDown]
    norm_num
  | succ m ih =>
    intro c hc hn
    by_cases h : c > 65535
    · rw [normDown, if_pos h]
      rw [ih (c - 65535) (by omega) (by omega)]
      have hneg : -c - 1 < 0 := by omega
      conv_rhs => rw [normUp, if_pos hneg]
      congr 1
      omega
    · rw [normDown, if_neg h]

theorem wordSum_nonneg : ∀ (l : List Nat) (c : Int), 0 ≤ c →
    0 ≤ wordSum l c
  | [], c, hc => by simpa [wordSum] using hc
  | [b], c, hc => by simp only [wordSum]; omega
  | b0 :: b1 :: rest, c, hc => by
    simp only [wordSum]
    exact wordSum_nonneg rest _ (by split <;> omega)

theorem normDown_nonneg (c : Int) (hc : 0 ≤ c) : 0 ≤ normDown c := by
  rw [normDown]
  split
  · exact normDown_nonneg (c - 65535) (by omega)
  · exact hc
  termination_by c.toNat
  decreasing_by omega

theorem calculateChecksum_eq_lt (data : List Nat) :
    calculateChecksum data = checksumSpec data ∧
      calculateChecksum data < 65535 := by
  have h1 : 0 ≤ wordSum data 0 := wordSum_nonneg data 0 le_rfl
  have h2 : 0 ≤ normDown (wordSum data 0) := normDown_nonneg _ h1
  have h3 : normUp (-(normDown (wordSum data 0)) - 1) =
      normUp (-(wordSum data 0) - 1) :=
    normUp_neg_normDown (wordSum data 0).toNat _ h1 le_rfl
  have h4 : (-(wordSum data 0) - 1) < 0 := by omega
  have h5 := normUp_nonneg_lt _ h4
  have hcond : (if normDown (wordSum data 0) > 0
      then -(normDown (wordSum data 0))
      else normDown (wordSum data 0)) = -(normDown (wordSum data 0)) := by
    split <;> omega
  simp only [calculateChecksum, checksumSpec]
  rw [hcond, h3, Int.emod_eq_of_lt (by omega) (by omega)]
  omega

/-- C2: the checksum agrees on every byte sequence with the spec's
reference description — word sum folded modulo 65535 with carries
wrapped back in, trailing odd byte added directly, negated,
decremented, normalized by repeated addition of 65535 — and its
result always fits in `[0, 65535)`. -/
theorem calculateChecksum_correct (data : List Nat) :
    calculateChecksum data = checksumSpec data ∧
      calculateChecksum data < 65535 :=
  calculateChecksum_eq_lt data

/-! ## Packet construction (`createHeader`) -/

/-- Constant `ushrtMax` of the source. -/
def ushrtMax : Nat := 65535

/-- Function `createHeader`: builds a ZKTeco packet.  Step 1 packs the header
with checksum 0 and the original replyID; step 2 computes the checksum
over that buffer; step 3 increments replyID in `uint16` arithmetic and
subtracts `ushrtMax` when the result reaches it; step 4 overwrites the
checksum field (bytes 2-4) and the replyID field (bytes 6-8) — which
`serializePacket` applied to the updated fields reproduces, the four
header fields occupying disjoint byte ranges.  Returns the packet
bytes and the next replyID. -/
def createHeader (command sessionID replyID : Nat) (data : List Nat) :
    List Nat × Nat :=
  let buf0 := serializePacket command 0 sessionID replyID data
  let checksum := calculateChecksum buf0
  let next0 := (replyID + 1) % 65536
  let nextReplyID := if next0 ≥ ushrtMax then next0 - ushrtMax else next0
  (serializePacket command checksum sessionID nextReplyID data, nextReplyID)

theorem createHeader_snd (c s r : Nat) (d : List Nat) (hr : r < 65535) :
    (createHeader c s r d).2 = (r + 1) % 65535 := by
  simp only [createHeader, ushrtMax]
  split_ifs with h <;> omega

/-- C1 (amended): for replyID at most 65534, the built packet carries
in bytes 2-4 the checksum of the serialization with checksum 0 and the
current replyID, in bytes 6-8 the incremented replyID, and the
returned nextReplyID equals `(replyID + 1) mod 65535`; from 65534 two
successive increments yield 0 and then 1.  (At the remaining `uint16`
value replyID = 65535 the increment wraps to 0, not to
`65536 mod 65535 = 1`; see the counterexample.) -/
theorem createHeader_correct (c s r : Nat) (d : List Nat)
    (hr : r < 65535) :
    (createHeader c s r d).2 = (r + 1) % 65535 ∧
    le16 (createHeader c s r d).1 2 =
      calculateChecksum (serializePacket c 0 s r d) ∧
    le16 (createHeader c s r d).1 6 = (r + 1) % 65535 ∧
    (createHeader c s 65534 d).2 = 0 ∧
    (createHeader c s ((createHeader c s 65534 d).2) d).2 = 1 := by
  have hchk : calculateChecksum (serializePacket c 0 s r d) < 65536 := by
    have := (calculateChecksum_eq_lt (serializePacket c 0 s r d)).2
    omega
  have h65534 : (createHeader c s 65534 d).2 = 0 := by
    rw [createHeader_snd c s 65534 d (by omega)]
  refine ⟨createHeader_snd c s r d hr, ?_, ?_, h65534, ?_⟩
  · show le16 (serializePacket c _ s _ d) 2 = _
    exact le16_serializePacket_2 _ _ _ _ hchk d
  · have : (createHeader c s r d).1 =
        serializePacket c (calculateChecksum (serializePacket c 0 s r d))
          s ((r + 1) % 65535) d := by
      simp only [createHeader, ushrtMax]
      congr 1
      split_ifs with h <;> omega
    rw [this]
    exact le16_serializePacket_6 _ _ _ _ (by omega) d
  · rw [h65534, createHeader_snd c s 0 d (by omega)]

/-- Witness for C1 at command 1000, session 2, replyID 5. -/
theorem createHeader_correct_witness :
    (createHeader 1000 2 5 [1, 2]).2 = (5 + 1) % 65535 ∧
    le16 (createHeader 1000 2 5 [1, 2]).1 2 =
      calculateChecksum (serializePacket 1000 0 2 5 [1, 2]) ∧
    le16 (createHeader 1000 2 5 [1, 2]).1 6 = (5 + 1) % 65535 ∧
    (createHeader 1000 2 65534 [1, 2]).2 = 0 ∧
    (createHeader 1000 2 ((createHeader 1000 2 65534 [1, 2]).2) [1, 2]).2
      = 1 :=
  createHeader_correct 1000 2 5 [1, 2] (by decide)

/-- C1 counterexample: at replyID = 65535 (a `uint16` value the
exchange layer can adopt from an echoed response) the `uint16`
increment wraps to 0 and the guard leaves it, so the returned
nextReplyID is 0, while `(65535 + 1) mod 65535 = 1`. -/
theorem createHeader_counterexample :
    (createHeader 1000 2 65535 []).2 = 0 ∧ (65535 + 1) % 65535 = 1 := by
  constructor
  · simp [createHeader, ushrtMax]
  · norm_num

/-! ## TCP framing (`extractTCPPacket`) -/

/-- Function `extractTCPPacket`: tries to extract a complete TCP-framed packet
from the reassembly buffer.  Returns (payload, remainder, ok); every
failure — short buffer, magic mismatch, or not enough bytes for the
declared length — returns the buffer intact with ok = false so the
caller keeps buffering. -/
def extractTCPPacket (buf : List Nat) : List Nat × List Nat × Bool :=
  if buf.length < 8 then ([], buf, false)
  else if buf.getD 0 0 ≠ 0x50 ∨ buf.getD 1 0 ≠ 0x50 ∨
      buf.getD 2 0 ≠ 0x82 ∨ buf.getD 3 0 ≠ 0x7D then ([], buf, false)
  else
    let payloadLen := le32 buf 4
    let totalLen := 8 + payloadLen
    if buf.length < totalLen then ([], buf, false)
    else ((buf.drop 8).take payloadLen, buf.drop totalLen, true)

/-- C3 (amended): a magic mismatch is always treated as "not a
complete frame yet" — no payload is extracted, the buffer is kept
intact, and the ok flag is false — regardless of how many bytes are
buffered; `extractTCPPacket` has no separate fatal-desync outcome. -/
theorem extractTCPPacket_magic_mismatch (buf : List Nat)
    (hmag : buf.getD 0 0 ≠ 0x50 ∨ buf.getD 1 0 ≠ 0x50 ∨
      buf.getD 2 0 ≠ 0x82 ∨ buf.getD 3 0 ≠ 0x7D) :
    extractTCPPacket buf = ([], buf, false) := by
  unfold extractTCPPacket
  rcases Nat.lt_or_ge buf.length 8 with h | h
  · rw [if_pos h]
  · rw [if_neg (by omega), if_pos hmag]

/-- Witness for C3 on a concrete mismatching buffer. -/
theorem extractTCPPacket_magic_mismatch_witness :
    extractTCPPacket [1, 2, 3, 4, 5, 6, 7, 8, 9] =
      ([], [1, 2, 3, 4, 5, 6, 7, 8, 9], false) :=
  extractTCPPacket_magic_mismatch [1, 2, 3, 4, 5, 6, 7, 8, 9] (by decide)

/-- C3 counterexample: an 8-byte buffer of zeros has wrong magic and a
declared length of 0, so `8 + declaredLength` bytes — a full frame's
worth — are buffered; the claim calls this a fatal desync error, but
the extractor returns the same recoverable keep-buffering result
(ok = false, buffer intact) it returns for an insufficient length. -/
theorem extractTCPPacket_counterexample :
    extractTCPPacket [0, 0, 0, 0, 0, 0, 0, 0] =
      ([], [0, 0, 0, 0, 0, 0, 0, 0], false) ∧
    8 + le32 [0, 0, 0, 0, 0, 0, 0, 0] 4 ≤
      ([0, 0, 0, 0, 0, 0, 0, 0] : List Nat).length := by
  constructor
  · rw [extractTCPPacket]
    norm_num
  · decide

/-! ## Bulk transfer (`recvLargeData`) -/

/-- The receive loop of `recvLargeData`, over the stream of incoming
chunks (TCP frame payloads or UDP datagrams): while fewer bytes than
the advertised total have been counted, take the next chunk — a read
from an exhausted stream is the receive error (`none`).  The first
chunk is appended whole and counts only its bytes beyond the first 8;
a later chunk longer than 8 bytes is appended and counted with its
leading 8 bytes stripped, a later chunk of at most 8 bytes is appended
and counted whole.  Returns the accumulated data and the unconsumed
stream. -/
def recvLoop (total : Nat) :
    List (List Nat) → List Nat → Nat → Bool →
      Option (List Nat × List (List Nat))
  | chunks, acc, received, first =>
    if received < total then
      match chunks with
      | [] => none
      | chunk :: rest =>
        if first then
          recvLoop total rest (acc ++ chunk)
            (received + (if 8 < chunk.length then chunk.length - 8 else 0))
            false
        else if 8 < chunk.length then
          recvLoop total rest (acc ++ chunk.drop 8)
            (received + (chunk.length - 8)) false
        else
          recvLoop total rest (acc ++ chunk)
            (received + chunk.length) false
    else some (acc, chunks)

/-- Function `recvLargeData`: reads the advertised total from bytes 8..12 of
the prepare-response (error if shorter than 12 bytes), returns empty
immediately on a zero total, otherwise runs the receive loop and then
consumes one further frame as the trailing acknowledgement — whose
absence is a fatal error even though the data was fully received. -/
def recvLargeData (prepareResp : List Nat) (chunks : List (List Nat)) :
    Option (List Nat) :=
  if prepareResp.length < 12 then none
  else
    let totalSize := le32 prepareResp 8
    if totalSize = 0 then some []
    else
      match recvLoop totalSize chunks [] 0 true with
      | none => none
      | some (allData, rest) =>
        match rest with
        | [] => none
        | _ :: _ => some allData

theorem recvLoop_stop (total : Nat) (chunks : List (List Nat))
    (acc : List Nat) (r : Nat) (first : Bool) (h : total ≤ r) :
    recvLoop total chunks acc r first = some (acc, chunks) := by
  rw [recvLoop.eq_def]
  dsimp only
  rw [if_neg (by omega)]

theorem recvLoop_first (total : Nat) (chunk : List Nat)
    (rest : List (List Nat)) (acc : List Nat) (r : Nat) (h : r < total) :
    recvLoop total (chunk :: rest) acc r true =
      recvLoop total rest (acc ++ chunk)
        (r + (if 8 < chunk.length then chunk.length - 8 else 0)) false := by
  rw [recvLoop.eq_def]
  dsimp only
  rw [if_pos h]
  rfl

theorem recvLoop_next_long (total : Nat) (chunk : List Nat)
    (rest : List (List Nat)) (acc : List Nat) (r : Nat) (h : r < total)
    (hl : 8 < chunk.length) :
    recvLoop total (chunk :: rest) acc r false =
      recvLoop total rest (acc ++ chunk.drop 8)
        (r + (chunk.length - 8)) false := by
  rw [recvLoop.eq_def]
  dsimp only
  rw [if_pos h]
  exact if_pos hl

theorem recvLoop_next_short (total : Nat) (chunk : List Nat)
    (rest : List (List Nat)) (acc : List Nat) (r : Nat) (h : r < total)
    (hl : ¬8 < chunk.length) :
    recvLoop total (chunk :: rest) acc r false =
      recvLoop total rest (acc ++ chunk) (r + chunk.length) false := by
  rw [recvLoop.eq_def]
  dsimp only
  rw [if_pos h]
  exact if_neg hl

/-- C4 (amended): the chunk receiver returns empty immediately on an
advertised total of zero; appends the first chunk whole counting only
its bytes beyond the first 8; strips the leading 8 bytes of every
subsequent chunk longer than 8 bytes before appending and counting,
while a subsequent chunk of at most 8 bytes is appended and counted
whole; stops once the count reaches the total; and then consumes
exactly one trailing frame, failing if the stream has none left. -/
theorem recvLargeData_correct :
    (∀ (resp : List Nat) (chunks : List (List Nat)),
      12 ≤ resp.length → le32 resp 8 = 0 →
      recvLargeData resp chunks = some []) ∧
    (∀ (total : Nat) (chunk : List Nat) (rest : List (List Nat))
        (acc : List Nat) (r : Nat), r < total →
      recvLoop total (chunk :: rest) acc r true =
        recvLoop total rest (acc ++ chunk) (r + (chunk.length - 8)) false) ∧
    (∀ (total : Nat) (chunk : List Nat) (rest : List (List Nat))
        (acc : List Nat) (r : Nat), r < total → 8 < chunk.length →
      recvLoop total (chunk :: rest) acc r false =
        recvLoop total rest (acc ++ chunk.drop 8)
          (r + (chunk.length - 8)) false) ∧
    (∀ (total : Nat) (chunk : List Nat) (rest : List (List Nat))
        (acc : List Nat) (r : Nat), r < total → chunk.length ≤ 8 →
      recvLoop total (chunk :: rest) acc r false =
        recvLoop total rest (acc ++ chunk) (r + chunk.length) false) ∧
    (∀ (total : Nat) (chunks : List (List Nat)) (acc : List Nat)
        (r : Nat) (first : Bool), total ≤ r →
      recvLoop total chunks acc r first = some (acc, chunks)) ∧
    (∀ (resp : List Nat) (chunks : List (List Nat)) (allData ack : List Nat)
        (rest : List (List Nat)),
      12 ≤ resp.length → le32 resp 8 ≠ 0 →
      recvLoop (le32 resp 8) chunks [] 0 true = some (allData, ack :: rest) →
      recvLargeData resp chunks = some allData) ∧
    (∀ (resp : List Nat) (chunks : List (List Nat)) (allData : List Nat),
      12 ≤ resp.length → le32 resp 8 ≠ 0 →
      recvLoop (le32 resp 8) chunks [] 0 true = some (allData, []) →
      recvLargeData resp chunks = none) := by
  refine ⟨?_, ?_, ?_, ?_, recvLoop_stop, ?_, ?_⟩
  · intro resp chunks hlen hzero
    simp only [recvLargeData]
    rw [if_neg (by omega), if_pos hzero]
  · intro total chunk rest acc r hr
    have e : (if 8 < chunk.length then chunk.length - 8 else 0) =
        chunk.length - 8 := by split_ifs <;> omega
    rw [recvLoop_first total chunk rest acc r hr, e]
  · intro total chunk rest acc r hr hlen
    exact recvLoop_next_long total chunk rest acc r hr hlen
  · intro total chunk rest acc r hr hlen
    exact recvLoop_next_short total chunk rest acc r hr (by omega)
  · intro resp chunks allData ack rest hlen hnz hloop
    simp only [recvLargeData]
    rw [if_neg (by omega), if_neg hnz, hloop]
  · intro resp chunks allData hlen hnz hloop
    simp only [recvLargeData]
    rw [if_neg (by omega), if_neg hnz, hloop]

/-- Witness for C4: a zero-total transfer, a first-chunk step, a
strip-step, a short-chunk step, loop exit, and both trailing-frame
outcomes at concrete inputs. -/
theorem recvLargeData_correct_witness :
    recvLargeData [0, 0, 0, 0, 0, 0, 0, 0, 0, 0, 0, 0] [[7]] = some [] ∧
    recvLoop 4 [[1, 2, 3, 4, 5, 6, 7, 8, 9]] [] 0 true =
      recvLoop 4 [] [1, 2, 3, 4, 5, 6, 7, 8, 9] 1 false ∧
    recvLoop 4 [[1, 2, 3, 4, 5, 6, 7, 8, 9]] [0] 1 false =
      recvLoop 4 [] [0, 9] 2 false ∧
    recvLoop 4 [[1, 2]] [0] 1 false = recvLoop 4 [] [0, 1, 2] 3 false ∧
    recvLoop 4 [[9]] [5] 4 false = some ([5], [[9]]) ∧
    recvLargeData [0, 0, 0, 0, 0, 0, 0, 0, 1, 0, 0, 0]
      [[1, 2, 3, 4, 5, 6, 7, 8, 9], [0]] =
      some [1, 2, 3, 4, 5, 6, 7, 8, 9] ∧
    recvLargeData [0, 0, 0, 0, 0, 0, 0, 0, 1, 0, 0, 0]
      [[1, 2, 3, 4, 5, 6, 7, 8, 9]] = none := by
  have h := recvLargeData_correct
  refine ⟨h.1 _ _ (by decide) (by decide), ?_, ?_, ?_, ?_, ?_, ?_⟩
  · simpa using h.2.1 4 [1, 2, 3, 4, 5, 6, 7, 8, 9] [] [] 0 (by decide)
  · simpa using h.2.2.1 4 [1, 2, 3, 4, 5, 6, 7, 8, 9] [] [0] 1
      (by decide) (by decide)
  · simpa using h.2.2.2.1 4 [1, 2] [] [0] 1 (by decide) (by decide)
  · exact h.2.2.2.2.1 4 [[9]] [5] 4 false (by decide)
  · exact h.2.2.2.2.2.1 _ _ [1, 2, 3, 4, 5, 6, 7, 8, 9] [0] []
      (by decide) (by decide) (by decide)
  · exact h.2.2.2.2.2.2 _ _ [1, 2, 3, 4, 5, 6, 7, 8, 9]
      (by decide) (by decide) (by decide)

/-- C4 counterexample: with an advertised total of 4, a 9-byte first
chunk (counts 1) and then a 4-byte subsequent chunk, the code appends
the 4-byte chunk whole and counts all 4 of its bytes, so the result
ends in those 4 unstripped bytes — while stripping its leading 8 bytes,
as the claim states for every subsequent chunk, would append nothing
(`[1,2,3,4].drop 8 = []`). -/
theorem recvLargeData_counterexample :
    recvLargeData [0, 0, 0, 0, 0, 0, 0, 0, 4, 0, 0, 0]
      [[10, 11, 12, 13, 14, 15, 16, 17, 99], [1, 2, 3, 4], [0]] =
      some [10, 11, 12, 13, 14, 15, 16, 17, 99, 1, 2, 3, 4] ∧
    ([1, 2, 3, 4] : List Nat).drop 8 = [] := by
  constructor
  · decide
  · decide

/-! ## Bulk-data dispatch (`commandData`) -/

/-- Command codes from `constants.go`. -/
def CMD_PREPARE_DATA : Nat := 1500

def CMD_ACK_DATA : Nat := 2002

def CMD_ACK_OK : Nat := 2000

def CMD_REG_EVENT : Nat := 500

/-- The error outcomes of `commandData`. -/
inductive CmdErr where
  | parseFailed
  | transferFailed
  | unexpectedResponse (code : Nat)
  deriving Repr, DecidableEq

/-- Function `commandData` from the point the immediate response `resp` of the
exchange is in hand: parse it and dispatch on its command code —
prepare-data delegates to the chunk receiver (over the stream
`chunks`), ack-data or ack-ok returns `resp` itself, anything else is
an unexpected-response error carrying the offending code. -/
def commandData (resp : List Nat) (chunks : List (List Nat)) :
    Except CmdErr (List Nat) :=
  match parsePacket resp with
  | none => .error .parseFailed
  | some pkt =>
    if pkt.Command = CMD_PREPARE_DATA then
      match recvLargeData resp chunks with
      | none => .error .transferFailed
      | some d => .ok d
    else if pkt.Command = CMD_ACK_DATA ∨ pkt.Command = CMD_ACK_OK then
      .ok resp
    else .error (.unexpectedResponse pkt.Command)

/-- C5: the immediate response's command code determines the outcome
of a bulk-data request: 1500 delegates to the chunk receiver, 2002 or
2000 returns the response itself, anything else is an
unexpected-response error naming the offending code. -/
theorem commandData_correct (resp : List Nat) (chunks : List (List Nat))
    (h8 : 8 ≤ resp.length) :
    (le16 resp 0 = CMD_PREPARE_DATA →
      commandData resp chunks =
        match recvLargeData resp chunks with
        | none => .error .transferFailed
        | some d => .ok d) ∧
    (le16 resp 0 = CMD_ACK_DATA ∨ le16 resp 0 = CMD_ACK_OK →
      commandData resp chunks = .ok resp) ∧
    (le16 resp 0 ≠ CMD_PREPARE_DATA → le16 resp 0 ≠ CMD_ACK_DATA →
      le16 resp 0 ≠ CMD_ACK_OK →
      commandData resp chunks =
        .error (.unexpectedResponse (le16 resp 0))) := by
  have hp : parsePacket resp = some
      { Command := le16 resp 0, Checksum := le16 resp 2,
        SessionID := le16 resp 4, ReplyID := le16 resp 6,
        Data := resp.drop 8 } := by
    unfold parsePacket
    rw [if_neg (by omega)]
  refine ⟨?_, ?_, ?_⟩
  · intro hcmd
    unfold commandData
    rw [hp]
    simp only [if_pos hcmd]
  · intro hcmd
    unfold commandData
    rw [hp]
    have hne : le16 resp 0 ≠ CMD_PREPARE_DATA := by
      rcases hcmd with h | h <;> simp [h, CMD_ACK_DATA, CMD_ACK_OK,
        CMD_PREPARE_DATA]
    simp only [if_neg hne, if_pos hcmd]
  · intro h1 h2 h3
    unfold commandData
    rw [hp]
    simp only [if_neg h1]
    rw [if_neg]
    tauto

/-- Witness for C5: all three dispatch outcomes at concrete
responses. -/
theorem commandData_correct_witness :
    commandData [208, 7, 0, 0, 0, 0, 0, 0] [] =
      .ok [208, 7, 0, 0, 0, 0, 0, 0] ∧
    commandData [210, 7, 0, 0, 0, 0, 0, 0] [] =
      .ok [210, 7, 0, 0, 0, 0, 0, 0] ∧
    commandData [209, 7, 0, 0, 0, 0, 0, 0] [] =
      .error (.unexpectedResponse 2001) ∧
    commandData [220, 5, 0, 0, 0, 0, 0, 0, 0, 0, 0, 0] [] = .ok [] := by
  refine ⟨?_, ?_, ?_, ?_⟩
  · exact (commandData_correct _ [] (by decide)).2.1 (by right; decide)
  · exact (commandData_correct _ [] (by decide)).2.1 (by left; decide)
  · have h := (commandData_correct [209, 7, 0, 0, 0, 0, 0, 0] []
      (by decide)).2.2 (by decide) (by decide) (by decide)
    rw [h]
    rfl
  · have h := (commandData_correct [220, 5, 0, 0, 0, 0, 0, 0, 0, 0, 0, 0]
      [] (by decide)).1 (by decide)
    rw [h]
    rfl

/-! ## Real-time event filtering (`GetRealTimeEvents`) -/

/-- The per-frame filter in the receive loop of `GetRealTimeEvents`:
a successfully received frame reaches the caller's handler iff none of
the guard `continue`s fire — at least 4 bytes, leading 16-bit command
equal to `CMD_REG_EVENT`, at least 6 bytes, and the 16-bit event type
at bytes 4-6 sharing a bit with the subscribed mask. -/
def frameReachesHandler (eventMask : Nat) (payload : List Nat) : Bool :=
  if payload.length < 4 then false
  else if le16 payload 0 ≠ CMD_REG_EVENT then false
  else if payload.length < 6 then false
  else if le16 payload 4 &&& eventMask = 0 then false
  else true

/-- C6: a frame is delivered to the handler iff it is at least 6 bytes
long, its leading command field is the reg-event code 500, and its
event type intersects the subscribed mask; failing any condition the
frame is skipped and polling continues. -/
theorem frameReachesHandler_correct (eventMask : Nat)
    (payload : List Nat) :
    frameReachesHandler eventMask payload = true ↔
      (6 ≤ payload.length ∧ le16 payload 0 = CMD_REG_EVENT ∧
        le16 payload 4 &&& eventMask ≠ 0) := by
  unfold frameReachesHandler
  split_ifs with h1 h2 h3 h4
  · constructor
    · intro h; cases h
    · rintro ⟨a, -, -⟩; omega
  · constructor
    · intro h; cases h
    · rintro ⟨-, b, -⟩; exact h2 b
  · constructor
    · intro h; cases h
    · rintro ⟨a, -, -⟩; omega
  · constructor
    · intro h; cases h
    · rintro ⟨-, -, c⟩; exact c h4
  · constructor
    · intro _
      exact ⟨by omega, not_not.mp h2, h4⟩
    · intro _; rfl

/-- Witness for C6: a matching attendance-log frame is delivered; the
theorem applied at it and the bound discharged by evaluation. -/
theorem frameReachesHandler_correct_witness :
    frameReachesHandler 1 [244, 1, 0, 0, 1, 0, 9, 9] = true :=
  (frameReachesHandler_correct 1 [244, 1, 0, 0, 1, 0, 9, 9]).2
    (by refine ⟨by decide, by decide, by decide⟩)

/-! ## Packed timestamps (`encodeTime` / `decodeTime`) -/

/-- The six calendar fields `encodeTime` reads off a `time.Time` and
`decodeTime` hands to `time.Date` (which, on in-range fields as
produced for any real calendar date, stores them unchanged). -/
structure DateTime where
  year : Nat
  month : Nat
  day : Nat
  hour : Nat
  minute : Nat
  second : Nat
  deriving Repr, DecidableEq

/-- Function `encodeTime`: packs the mixed-radix ZKTeco timestamp;
`t.Year() % 100` is the offset from 2000 for years 2000..2099, and the
final `uint32` conversion is the explicit modulus. -/
def encodeTime (t : DateTime) : Nat :=
  (((t.year % 100) * 12 * 31 + (t.month - 1) * 31 + t.day - 1) * 24 * 60 * 60 +
      (t.hour * 60 + t.minute) * 60 + t.second) % 4294967296

/-- Function `decodeTime`: unpacks by successive modulo/divide by
60, 60, 24, 31, 12 and re-bases the year at 2000. -/
def decodeTime (t : Nat) : DateTime :=
  let second := t % 60
  let t1 := t / 60
  let minute := t1 % 60
  let t2 := t1 / 60
  let hour := t2 % 24
  let t3 := t2 / 24
  let day := t3 % 31 + 1
  let t4 := t3 / 31
  let month := t4 % 12 + 1
  let t5 := t4 / 12
  { year := t5 + 2000, month := month, day := day, hour := hour,
    minute := minute, second := second }

/-- C8: for every datetime with year 2000..2099, month 1..12,
day 1..31, hour 0..23, minute and second 0..59, decoding the encoded
packed timestamp recovers every field. -/
theorem decodeTime_encodeTime (t : DateTime)
    (hy1 : 2000 ≤ t.year) (hy2 : t.year ≤ 2099)
    (hm1 : 1 ≤ t.month) (hm2 : t.month ≤ 12)
    (hd1 : 1 ≤ t.day) (hd2 : t.day ≤ 31)
    (hh : t.hour ≤ 23) (hmi : t.minute ≤ 59) (hs : t.second ≤ 59) :
    decodeTime (encodeTime t) = t := by
  obtain ⟨y, m, d, h, mi, s⟩ := t
  simp only at *
  have henc : encodeTime ⟨y, m, d, h, mi, s⟩ =
      ((y % 100) * 12 * 31 + (m - 1) * 31 + d - 1) * 24 * 60 * 60 +
        (h * 60 + mi) * 60 + s := by
    simp only [encodeTime]
    exact Nat.mod_eq_of_lt (by omega)
  rw [henc]
  simp only [decodeTime, DateTime.mk.injEq]
  omega

/-- Witness for C8 at a concrete datetime. -/
theorem decodeTime_encodeTime_witness :
    decodeTime (encodeTime
      { year := 2025, month := 10, day := 11, hour := 13, minute := 45,
        second := 7 }) =
      { year := 2025, month := 10, day := 11, hour := 13, minute := 45,
        second := 7 } :=
  decodeTime_encodeTime _ (by decide) (by decide) (by decide) (by decide)
    (by decide) (by decide) (by decide) (by decide) (by decide)

/-! ## Stateful exchange (`command`) -/

/-- The mutable client fields the `command` method reads and writes. -/
structure ClientState where
  sessionID : Nat
  replyID : Nat
  lastData : List Nat
  deriving Repr, DecidableEq

/-- The `command` method, under the assumption that transport send and
receive succeed and the wire delivers `resp`: adopt the replyID echoed
in bytes 6-8 of `lastData` when at least 8 bytes are on record, build
the packet, then — already before any session check — set `replyID` to
the returned nextReplyID and store `resp` as `lastData`.  For a
non-"data" command with a nonzero session and a response of at least
6 bytes whose echoed session id differs, the call returns the
session-mismatch error (`none`).  Returns the result paired with the
state after the call. -/
def command (st : ClientState) (cmd : Nat) (data : List Nat)
    (cmdType : String) (resp : List Nat) :
    Option (List Nat) × ClientState :=
  let replyID :=
    if 8 ≤ st.lastData.length then le16 st.lastData 6 else st.replyID
  let pr := createHeader cmd st.sessionID replyID data
  let st1 : ClientState := { st with replyID := pr.2, lastData := resp }
  if cmdType = "data" then (some resp, st1)
  else if st.sessionID ≠ 0 ∧ 6 ≤ resp.length ∧ le16 resp 4 ≠ st.sessionID
    then (none, st1)
  else (some resp, st1)

/-- C10: a non-bulk exchange that receives a response whose session-id
field differs from the client's nonzero sessionID returns the
session-mismatch error, but the returned state has already been
mutated: replyID advanced to the nextReplyID of the built packet and
lastData set to the mismatched response bytes. -/
theorem command_session_mismatch (st : ClientState) (cmd : Nat)
    (data resp : List Nat) (cmdType : String)
    (hnd : cmdType ≠ "data") (hs : st.sessionID ≠ 0)
    (hlen : 6 ≤ resp.length) (hmis : le16 resp 4 ≠ st.sessionID) :
    command st cmd data cmdType resp =
      (none,
        { sessionID := st.sessionID
          replyID := (createHeader cmd st.sessionID
            (if 8 ≤ st.lastData.length then le16 st.lastData 6
              else st.replyID) data).2
          lastData := resp }) := by
  unfold command
  rw [if_neg hnd, if_pos ⟨hs, hlen, hmis⟩]

/-- Witness for C10: concrete mismatching exchange, with the state
visibly mutated. -/
theorem command_session_mismatch_witness :
    command { sessionID := 5, replyID := 65534, lastData := [] }
        1000 [] "general" [0, 0, 0, 0, 9, 0] =
      (none,
        { sessionID := 5, replyID := (createHeader 1000 5 65534 []).2,
          lastData := [0, 0, 0, 0, 9, 0] }) := by
  have h := command_session_mismatch
    { sessionID := 5, replyID := 65534, lastData := [] } 1000 []
    [0, 0, 0, 0, 9, 0] "general" (by decide) (by decide) (by decide)
    (by decide)
  simpa using h

/-! ## Auth key derivation (`makeCommKey`) -/

/-- One iteration of the bit-reversal loop of `makeCommKey` on the
`uint32` accumulator `k`: `k = (k << 1) | 1` when bit `i` of the key
is set, else `k = k << 1`. -/
def revStep (key k i : Nat) : Nat :=
  if key &&& (1 <<< i) ≠ 0 then ((k <<< 1) ||| 1) % 4294967296
  else (k <<< 1) % 4294967296

/-- The 32-iteration bit-reversal loop of `makeCommKey`
(`for i := 0; i < 32; i++`). -/
def reverseBitsLoop (key : Nat) : Nat :=
  (List.range 32).foldl (revStep key) 0

/-- Modelled from the spec: "bit-reverse all 32 bits of password" —
bit `i` of the key becomes bit `31 - i` of the result. -/
def reverseBits32 (key : Nat) : Nat :=
  ∑ i ∈ Finset.range 32, if key.testBit i then 2 ^ (31 - i) else 0

/-- Function `makeCommKey`: reverse the key's 32 bits, add the session id in
`uint32` arithmetic, serialize little-endian, XOR bytewise with
"ZKSO", swap the two 16-bit halves via two `Uint16` reads and writes,
then XOR bytes 0, 1 and 3 with the mask `0xFF & 50 = 0x32` and set
byte 2 to the mask. -/
def makeCommKey (key sessionID : Nat) : List Nat :=
  let k := (reverseBitsLoop key + sessionID) % 4294967296
  let b := put32 k
  let xorKeys : List Nat := [90, 75, 83, 79]
  let bx := List.zipWith (fun x y => x ^^^ y) b xorKeys
  let s1 := le16 bx 0
  let s2 := le16 bx 2
  let bs := put16 s2 ++ put16 s1
  let mask := 0xFF &&& 50
  [bs.getD 0 0 ^^^ mask, bs.getD 1 0 ^^^ mask, mask, bs.getD 3 0 ^^^ mask]

/-- Modelled from the spec's step list for `makeCommKey`, with the
byte shuffling written out directly: the four little-endian bytes of
the bit-reversed password plus session id, XORed with the ASCII codes
of "ZKSO"; the half-swap makes the byte order 2,3,0,1, after which
bytes 0, 1 and 3 are XORed with 0x32 while what was byte 0 of the
original word is discarded — byte 2 is exactly 0x32. -/
def makeCommKeySpec (key sessionID : Nat) : List Nat :=
  let k := (reverseBits32 key + sessionID) % 4294967296
  let a1 := k / 256 % 256 ^^^ 75
  let a2 := k / 65536 % 256 ^^^ 83
  let a3 := k / 16777216 % 256 ^^^ 79
  [a2 ^^^ 0x32, a3 ^^^ 0x32, 0x32, a1 ^^^ 0x32]

theorem two_mul_lor_one (k : Nat) : (2 * k) ||| 1 = 2 * k + 1 := by
  have h := Nat.lor_bit false k true 0
  simp [Nat.bit_val] at h
  simpa using h

theorem revStep_eq (key k i : Nat) :
    revStep key k i = (2 * k + (key.testBit i).toNat) % 4294967296 := by
  unfold revStep
  rw [Nat.one_shiftLeft, Nat.and_two_pow, Nat.shiftLeft_eq, pow_one,
    mul_comm k 2, two_mul_lor_one]
  cases h : key.testBit i <;> simp

/-- The running bit-reversal of the first `n` bits of the key. -/
def bitSum (key n : Nat) : Nat :=
  ∑ i ∈ Finset.range n, if key.testBit i then 2 ^ (n - 1 - i) else 0

theorem bitSum_succ (key m : Nat) :
    bitSum key (m + 1) = 2 * bitSum key m + (key.testBit m).toNat := by
  unfold bitSum
  rw [Finset.sum_range_succ, Finset.mul_sum]
  have h1 : ∀ i ∈ Finset.range m,
      (if key.testBit i then 2 ^ (m + 1 - 1 - i) else 0) =
        2 * (if key.testBit i then 2 ^ (m - 1 - i) else 0) := by
    intro i hi
    have him : i < m := Finset.mem_range.mp hi
    split_ifs
    · have he : m + 1 - 1 - i = (m - 1 - i) + 1 := by omega
      rw [he, pow_succ]
      ring
    · ring
  rw [Finset.sum_congr rfl h1]
  have h2 : (if key.testBit m then 2 ^ (m + 1 - 1 - m) else 0) =
      (key.testBit m).toNat := by
    cases h : key.testBit m <;> simp
  rw [h2]

theorem sum_two_pow_range (n : Nat) :
    ∑ j ∈ Finset.range n, 2 ^ j = 2 ^ n - 1 := by
  induction n with
  | zero => simp
  | succ k ih =>
    rw [Finset.sum_range_succ, ih, pow_succ]
    have := Nat.two_pow_pos k
    omega

theorem bitSum_lt (key n : Nat) : bitSum key n < 2 ^ n := by
  have h1 : bitSum key n ≤ ∑ i ∈ Finset.range n, 2 ^ (n - 1 - i) :=
    Finset.sum_le_sum (fun i _ => by split_ifs <;> simp)
  rw [Finset.sum_range_reflect (fun j => 2 ^ j) n, sum_two_pow_range n] at h1
  have h2 := Nat.two_pow_pos n
  omega

theorem revLoop_range (key : Nat) : ∀ n : Nat, ∀ a : Nat, a < 4294967296 →
    (List.range n).foldl (revStep key) a =
      (a * 2 ^ n + bitSum key n) % 4294967296 := by
  intro n
  induction n with
  | zero =>
    intro a ha
    simp [bitSum]
    omega
  | succ m ih =>
    intro a ha
    rw [List.range_succ, List.foldl_append, List.foldl_cons, List.foldl_nil,
      ih a ha, revStep_eq, bitSum_succ]
    have hp : a * 2 ^ (m + 1) = 2 * (a * 2 ^ m) := by ring
    rw [hp]
    omega

theorem reverseBitsLoop_eq (key : Nat) :
    reverseBitsLoop key = reverseBits32 key := by
  have h := revLoop_range key 32 0 (by norm_num)
  have hlt : bitSum key 32 < 4294967296 := by
    have := bitSum_lt key 32
    norm_num at this
    omega
  have hspec : bitSum key 32 = reverseBits32 key :=
    Finset.sum_congr rfl (fun i _ => by norm_num)
  rw [reverseBitsLoop, h, Nat.zero_mul, Nat.zero_add,
    Nat.mod_eq_of_lt hlt, hspec]

theorem xor_lt_256 (x y : Nat) (hx : x < 256) (hy : y < 256) :
    x ^^^ y < 256 := by
  have h : x ^^^ y < 2 ^ 8 :=
    Nat.xor_lt_two_pow (by norm_num at hx ⊢; omega)
      (by norm_num at hy ⊢; omega)
  norm_num at h
  omega

/-- C9: `makeCommKey` computes exactly the spec's 4-byte derivation —
bit-reverse the password's 32 bits, add the session id, serialize
little-endian, XOR with "ZKSO", swap the 16-bit halves, XOR bytes
0, 1, 3 with 0x32 and set byte 2 to 0x32. -/
theorem makeCommKey_eq_spec (key sessionID : Nat) :
    makeCommKey key sessionID = makeCommKeySpec key sessionID := by
  unfold makeCommKey makeCommKeySpec
  rw [reverseBitsLoop_eq]
  have hmask : (0xFF &&& 50 : Nat) = 50 := by decide
  rw [hmask]
  set K := (reverseBits32 key + sessionID) % 4294967296 with hK
  have hx0 : K % 256 ^^^ 90 < 256 :=
    xor_lt_256 _ _ (Nat.mod_lt _ (by norm_num)) (by norm_num)
  have hx1 : K / 256 % 256 ^^^ 75 < 256 :=
    xor_lt_256 _ _ (Nat.mod_lt _ (by norm_num)) (by norm_num)
  have hx2 : K / 65536 % 256 ^^^ 83 < 256 :=
    xor_lt_256 _ _ (Nat.mod_lt _ (by norm_num)) (by norm_num)
  have hx3 : K / 16777216 % 256 ^^^ 79 < 256 :=
    xor_lt_256 _ _ (Nat.mod_lt _ (by norm_num)) (by norm_num)
  simp only [put32, List.zipWith_cons_cons, List.zipWith_nil_right, le16,
    put16, List.getD_cons_zero, List.getD_cons_succ, List.cons_append,
    List.nil_append, List.cons.injEq, and_true]
  have e0 : ((K / 65536 % 256 ^^^ 83) +
      256 * (K / 16777216 % 256 ^^^ 79)) % 256 = K / 65536 % 256 ^^^ 83 := by
    omega
  have e1 : ((K / 65536 % 256 ^^^ 83) +
      256 * (K / 16777216 % 256 ^^^ 79)) / 256 % 256 =
        K / 16777216 % 256 ^^^ 79 := by
    omega
  have e3 : ((K % 256 ^^^ 90) + 256 * (K / 256 % 256 ^^^ 75)) / 256 % 256 =
      K / 256 % 256 ^^^ 75 := by
    omega
  exact ⟨by rw [e0], by rw [e1], trivial, by rw [e3]⟩

/-- A concrete end-to-end evaluation of the derivation. -/
theorem makeCommKey_concrete :
    makeCommKey 0 0 = [97, 125, 50, 121] := by decide

/-- Witness for C7 at a concrete packet. -/
theorem parsePacket_correct_witness :
    parsePacket (serializePacket 1000 7 2 65534 [1, 2, 3]) =
      some { Command := 1000, Checksum := 7, SessionID := 2,
             ReplyID := 65534, Data := [1, 2, 3] } :=
  parsePacket_correct.2 1000 7 2 65534 [1, 2, 3]
    (by decide) (by decide) (by decide) (by decide)

end ZK
